import Mathlib

/-!
Verification of the analysis run coordinator (`cellprofiler_core/analysis/_runner.py`)
against its natural-language specification.

The development shallowly embeds the parts of `Runner` that the claims are
about: the measurement-merge operation `copy_recieved_measurements`, the job
planner inside `interface()`, the work-queue bootstrap gating, the job-server
request handler inside `jobserver()`, the interface teardown control flow, and
the `cancel()` flag handling.  All definitions are translated from the Python
source; theorems state the claims over those definitions.
-/

namespace RunnerModel

/-! ## Status constants (Runner.STATUS, Runner.STATUS_*) -/

def STATUS : String := "ProcessingStatus"

def STATUS_UNPROCESSED : String := "Unprocessed"

def STATUS_IN_PROCESS : String := "InProcess"

def STATUS_FINISHED_WAITING : String := "FinishedWaitingMeasurements"

def STATUS_DONE : String := "Done"

/-! ## Measurement values and stores

A measurement value is either a scalar (string or number) or a numpy array,
modelled as a list of naturals.  A store is the logical tensor addressed by
`(entity, feature, image_number)` together with the entity/feature name sets
and the relationship records (`Measurements` in the source). -/

inductive MVal where
  | s (v : String)
  | n (v : Nat)
  | arr (v : List Nat)
  deriving DecidableEq

/-- Logical view of a `Measurements` store: object (entity) names, per-entity
feature names, the data tensor (`none` = no measurement recorded), and the
relationship records. -/
structure MStore where
  objectNames : List String
  featureNames : String → List String
  data : String → String → Nat → Option MVal
  relationships : List (Nat × Nat)

/-- `Measurements.has_feature(o, f)`. -/
def MStore.hasFeature (m : MStore) (o f : String) : Bool :=
  decide (f ∈ m.featureNames o)

/-- Vectorised write `measurements[o, f, nums] = src[nums]`: updates the data
tensor at the given image numbers and records the feature name. -/
def MStore.writeFrom (m : MStore) (o f : String) (nums : List Nat)
    (src : Nat → Option MVal) : MStore :=
  { m with
    data := fun o2 f2 k =>
      if o2 = o ∧ f2 = f ∧ k ∈ nums then src k else m.data o2 f2 k,
    featureNames := fun o2 =>
      if o2 = o ∧ f ∉ m.featureNames o then f :: m.featureNames o
      else m.featureNames o2 }

/-- The element-wise difference test used by `copy_recieved_measurements`:
`numpy.any(rv != lv) if isinstance(lv, numpy.ndarray) else lv != rv`.
Arrays compare element-wise; a missing value differs from any present value. -/
def valuesDiffer (lv rv : Option MVal) : Bool :=
  match lv, rv with
  | some (MVal.arr a), some (MVal.arr b) => decide ¬ (a = b)
  | some (MVal.arr _), _ => true
  | _, _ => decide ¬ (lv = rv)

/-- The `f_image_numbers` computed for one `"Image"` feature by
`copy_recieved_measurements` (lines 468-485): all of `image_numbers` when the
feature is new locally, otherwise only those whose remote value differs from
the local one. -/
def imageFeatNums (recd : MStore) (nums : List Nat) (m : MStore) (f : String) :
    List Nat :=
  if ¬ m.hasFeature "Image" f then nums
  else nums.filter fun k => valuesDiffer (m.data "Image" f k) (recd.data "Image" f k)

/-- One iteration of the `"Image"` feature loop of `copy_recieved_measurements`
(lines 467-489): write the values of `f_image_numbers` when that subset is
nonempty. -/
def imageFeatStep (recd : MStore) (nums : List Nat) (m : MStore) (f : String) :
    MStore :=
  if 0 < (imageFeatNums recd nums m f).length then
    m.writeFrom "Image" f (imageFeatNums recd nums m f) (recd.data "Image" f)
  else m

/-- One iteration of the object loop of `copy_recieved_measurements`
(lines 461-494): skip `Experiment`, diff-write `Image`, write everything else
unconditionally. -/
def objStep (recd : MStore) (nums : List Nat) (m : MStore) (o : String) : MStore :=
  if o = "Experiment" then m
  else if o = "Image" then (recd.featureNames "Image").foldl (imageFeatStep recd nums) m
  else (recd.featureNames o).foldl
    (fun m2 f => m2.writeFrom o f nums (recd.data o f)) m

/-- One iteration of the final status loop of `copy_recieved_measurements`
(lines 495-496): `measurements["Image", STATUS, image_set_number] = STATUS_DONE`. -/
def statusStep (m : MStore) (k : Nat) : MStore :=
  m.writeFrom "Image" STATUS [k] (fun _ => some (MVal.s STATUS_DONE))

/-- `Runner.copy_recieved_measurements(recd, main, nums)` (lines 449-496):
merge relationships additively, copy every non-`Experiment` entity, then mark
every image number of the batch `Done`. -/
def copy_recieved_measurements (recd main : MStore) (nums : List Nat) : MStore :=
  nums.foldl statusStep
    (recd.objectNames.foldl (objStep recd nums)
      { main with relationships := main.relationships ++ recd.relationships })

/-! ### Basic lemmas about `writeFrom`, `valuesDiffer` and store folds -/

theorem writeFrom_data (m : MStore) (o f : String) (nums : List Nat)
    (src : Nat → Option MVal) (o2 f2 : String) (k : Nat) :
    (m.writeFrom o f nums src).data o2 f2 k =
      if o2 = o ∧ f2 = f ∧ k ∈ nums then src k else m.data o2 f2 k := rfl

theorem valuesDiffer_eq_false : ∀ {lv rv : Option MVal},
    valuesDiffer lv rv = false → lv = rv := by
  intro lv rv h
  match lv, rv with
  | some (MVal.arr a), some (MVal.arr b) =>
    have : a = b := by
      have h2 := of_decide_eq_false (p := ¬ (a = b)) h
      exact not_not.1 h2
    rw [this]
  | some (MVal.arr a), some (MVal.s v) => exact absurd h (by simp [valuesDiffer])
  | some (MVal.arr a), some (MVal.n v) => exact absurd h (by simp [valuesDiffer])
  | some (MVal.arr a), none => exact absurd h (by simp [valuesDiffer])
  | some (MVal.s v), rv =>
    exact not_not.1 (of_decide_eq_false (p := ¬ (some (MVal.s v) = rv)) h)
  | some (MVal.n v), rv =>
    exact not_not.1 (of_decide_eq_false (p := ¬ (some (MVal.n v) = rv)) h)
  | none, rv =>
    exact not_not.1 (of_decide_eq_false (p := ¬ ((none : Option MVal) = rv)) h)

/-- Along a fold whose every step either leaves the cell `(o2, f2, k)` alone or
sets it to the reference value `r`, the final cell holds the initial value
or `r`. -/
theorem foldl_data_eq_or {α : Type} (g : MStore → α → MStore) (o2 f2 : String)
    (k : Nat) (r : Option MVal)
    (hg : ∀ (m : MStore) (a : α),
      (g m a).data o2 f2 k = m.data o2 f2 k ∨ (g m a).data o2 f2 k = r) :
    ∀ (as : List α) (m : MStore),
      (as.foldl g m).data o2 f2 k = m.data o2 f2 k ∨ (as.foldl g m).data o2 f2 k = r := by
  intro as
  induction as with
  | nil => intro m; left; rfl
  | cons a as ih =>
    intro m
    rw [List.foldl_cons]
    rcases ih (g m a) with h | h
    · rcases hg m a with h2 | h2
      · left; rw [h, h2]
      · right; rw [h, h2]
    · right; exact h

/-- If some element `a0` of the fold list forces the cell to the reference
value `r`, and every step either preserves the cell or sets it to `r`, then
the fold ends with the cell equal to `r`. -/
theorem foldl_data_establishes {α : Type} (g : MStore → α → MStore) (o2 f2 : String)
    (k : Nat) (r : Option MVal) (a0 : α)
    (hg : ∀ (m : MStore) (a : α),
      (g m a).data o2 f2 k = m.data o2 f2 k ∨ (g m a).data o2 f2 k = r)
    (hest : ∀ m : MStore, (g m a0).data o2 f2 k = r) :
    ∀ (as : List α) (m : MStore), a0 ∈ as → (as.foldl g m).data o2 f2 k = r := by
  intro as
  induction as with
  | nil => intro m h; exact absurd h (List.not_mem_nil a0)
  | cons a as ih =>
    intro m h
    rw [List.foldl_cons]
    rcases List.mem_cons.1 h with h0 | h0
    · rcases foldl_data_eq_or g o2 f2 k r hg as (g m a) with h2 | h2
      · rw [h2, ← h0]; exact hest m
      · exact h2
    · exact ih (g m a) h0

/-- A fold whose steps never touch the cell `(o2, f2, k)` leaves it unchanged. -/
theorem foldl_data_preserved {α : Type} (g : MStore → α → MStore) (o2 f2 : String)
    (k : Nat)
    (hg : ∀ (m : MStore) (a : α), (g m a).data o2 f2 k = m.data o2 f2 k) :
    ∀ (as : List α) (m : MStore), (as.foldl g m).data o2 f2 k = m.data o2 f2 k := by
  intro as
  induction as with
  | nil => intro m; rfl
  | cons a as ih =>
    intro m
    rw [List.foldl_cons, ih, hg]

theorem writeFrom_data_ne (m : MStore) (o f : String) (nums : List Nat)
    (src : Nat → Option MVal) (o2 f2 : String) (k : Nat)
    (h : ¬ (o2 = o ∧ f2 = f ∧ k ∈ nums)) :
    (m.writeFrom o f nums src).data o2 f2 k = m.data o2 f2 k := by
  rw [writeFrom_data, if_neg h]

/-! ### Step-level lemmas for `copy_recieved_measurements` -/

theorem imageFeatStep_establishes (recd : MStore) (nums : List Nat) (f : String)
    (k : Nat) (hk : k ∈ nums) (m : MStore) :
    (imageFeatStep recd nums m f).data "Image" f k = recd.data "Image" f k := by
  unfold imageFeatStep
  by_cases hkf : k ∈ imageFeatNums recd nums m f
  · rw [if_pos (List.length_pos.2 (List.ne_nil_of_mem hkf))]
    rw [writeFrom_data, if_pos ⟨rfl, rfl, hkf⟩]
  · have heq : m.data "Image" f k = recd.data "Image" f k := by
      unfold imageFeatNums at hkf
      by_cases hf : m.hasFeature "Image" f = true
      · rw [if_neg (fun hc => hc hf)] at hkf
        cases hvd : valuesDiffer (m.data "Image" f k) (recd.data "Image" f k) with
        | false => exact valuesDiffer_eq_false hvd
        | true => exact absurd (List.mem_filter.2 ⟨hk, hvd⟩) hkf
      · rw [if_pos hf] at hkf
        exact absurd hk hkf
    by_cases hlen : 0 < (imageFeatNums recd nums m f).length
    · rw [if_pos hlen, writeFrom_data, if_neg (fun hc => hkf hc.2.2)]
      exact heq
    · rw [if_neg hlen]
      exact heq

theorem imageFeatStep_data_cases (recd : MStore) (nums : List Nat) (o2 f2 : String)
    (k : Nat) (m : MStore) (f : String) :
    (imageFeatStep recd nums m f).data o2 f2 k = m.data o2 f2 k ∨
      (imageFeatStep recd nums m f).data o2 f2 k = recd.data o2 f2 k := by
  unfold imageFeatStep
  by_cases hlen : 0 < (imageFeatNums recd nums m f).length
  · rw [if_pos hlen, writeFrom_data]
    by_cases hc : o2 = "Image" ∧ f2 = f ∧ k ∈ imageFeatNums recd nums m f
    · rw [if_pos hc]
      right
      rw [hc.1, hc.2.1]
    · rw [if_neg hc]
      left
      rfl
  · rw [if_neg hlen]
    left
    rfl

theorem otherFeatStep_establishes (recd : MStore) (nums : List Nat) (o f : String)
    (k : Nat) (hk : k ∈ nums) (m : MStore) :
    (m.writeFrom o f nums (recd.data o f)).data o f k = recd.data o f k := by
  rw [writeFrom_data, if_pos ⟨rfl, rfl, hk⟩]

theorem otherFeatStep_data_cases (recd : MStore) (nums : List Nat) (o : String)
    (o2 f2 : String) (k : Nat) (m : MStore) (f : String) :
    (m.writeFrom o f nums (recd.data o f)).data o2 f2 k = m.data o2 f2 k ∨
      (m.writeFrom o f nums (recd.data o f)).data o2 f2 k = recd.data o2 f2 k := by
  rw [writeFrom_data]
  by_cases hc : o2 = o ∧ f2 = f ∧ k ∈ nums
  · rw [if_pos hc]
    right
    rw [hc.1, hc.2.1]
  · rw [if_neg hc]
    left
    rfl

theorem objStep_establishes (recd : MStore) (nums : List Nat) (o f : String) (k : Nat)
    (ho : o ≠ "Experiment") (hf : f ∈ recd.featureNames o) (hk : k ∈ nums)
    (m : MStore) :
    (objStep recd nums m o).data o f k = recd.data o f k := by
  unfold objStep
  rw [if_neg ho]
  by_cases hio : o = "Image"
  · subst hio
    rw [if_pos rfl]
    exact foldl_data_establishes (imageFeatStep recd nums) "Image" f k
      (recd.data "Image" f k) f
      (fun m2 a => imageFeatStep_data_cases recd nums "Image" f k m2 a)
      (fun m2 => imageFeatStep_establishes recd nums f k hk m2)
      (recd.featureNames "Image") m hf
  · rw [if_neg hio]
    exact foldl_data_establishes _ o f k (recd.data o f k) f
      (fun m2 a => otherFeatStep_data_cases recd nums o o f k m2 a)
      (fun m2 => otherFeatStep_establishes recd nums o f k hk m2)
      (recd.featureNames o) m hf

theorem objStep_data_cases (recd : MStore) (nums : List Nat) (o2 f2 : String)
    (k : Nat) (m : MStore) (o : String) :
    (objStep recd nums m o).data o2 f2 k = m.data o2 f2 k ∨
      (objStep recd nums m o).data o2 f2 k = recd.data o2 f2 k := by
  unfold objStep
  by_cases he : o = "Experiment"
  · rw [if_pos he]
    left
    rfl
  · rw [if_neg he]
    by_cases hio : o = "Image"
    · rw [if_pos hio]
      exact foldl_data_eq_or _ o2 f2 k (recd.data o2 f2 k)
        (fun m2 a => imageFeatStep_data_cases recd nums o2 f2 k m2 a) _ m
    · rw [if_neg hio]
      exact foldl_data_eq_or _ o2 f2 k (recd.data o2 f2 k)
        (fun m2 a => otherFeatStep_data_cases recd nums o o2 f2 k m2 a) _ m

theorem objStep_data_experiment (recd : MStore) (nums : List Nat) (f2 : String)
    (k : Nat) (m : MStore) (o : String) :
    (objStep recd nums m o).data "Experiment" f2 k = m.data "Experiment" f2 k := by
  unfold objStep
  by_cases he : o = "Experiment"
  · rw [if_pos he]
  · rw [if_neg he]
    by_cases hio : o = "Image"
    · rw [if_pos hio]
      refine foldl_data_preserved _ "Experiment" f2 k (fun m2 a => ?_) _ m
      unfold imageFeatStep
      by_cases hlen : 0 < (imageFeatNums recd nums m2 a).length
      · rw [if_pos hlen]
        exact writeFrom_data_ne m2 "Image" a _ _ "Experiment" f2 k
          (fun hc => absurd hc.1 (by decide))
      · rw [if_neg hlen]
    · rw [if_neg hio]
      refine foldl_data_preserved _ "Experiment" f2 k (fun m2 a => ?_) _ m
      exact writeFrom_data_ne m2 o a nums _ "Experiment" f2 k
        (fun hc => he hc.1.symm)

theorem statusStep_data_cases (o2 f2 : String) (k : Nat) (m : MStore) (a : Nat) :
    (statusStep m a).data o2 f2 k = m.data o2 f2 k ∨
      (statusStep m a).data o2 f2 k = some (MVal.s STATUS_DONE) := by
  unfold statusStep
  rw [writeFrom_data]
  by_cases hc : o2 = "Image" ∧ f2 = STATUS ∧ k ∈ [a]
  · rw [if_pos hc]
    right
    rfl
  · rw [if_neg hc]
    left
    rfl

theorem statusFold_done (nums : List Nat) (k : Nat) (hk : k ∈ nums) (m : MStore) :
    (nums.foldl statusStep m).data "Image" STATUS k = some (MVal.s STATUS_DONE) :=
  foldl_data_establishes statusStep "Image" STATUS k (some (MVal.s STATUS_DONE)) k
    (fun m2 a => statusStep_data_cases "Image" STATUS k m2 a)
    (fun m2 => by
      unfold statusStep
      rw [writeFrom_data, if_pos ⟨rfl, rfl, List.mem_singleton.2 rfl⟩])
    nums m hk

theorem statusFold_other (nums : List Nat) (o2 f2 : String) (k : Nat)
    (h : ¬ (o2 = "Image" ∧ f2 = STATUS)) (m : MStore) :
    (nums.foldl statusStep m).data o2 f2 k = m.data o2 f2 k :=
  foldl_data_preserved statusStep o2 f2 k
    (fun m2 a => by
      unfold statusStep
      rw [writeFrom_data, if_neg (fun hc => h ⟨hc.1, hc.2.1⟩)]) nums m

/-! ### C1: the measurement-merge claim

The claim as frozen fails: the final loop of `copy_recieved_measurements`
unconditionally sets `main["Image", ProcessingStatus, n] = Done`, so when the
received store itself carries an `"Image"` feature named `ProcessingStatus`
with a value other than `Done`, the required equality
`main[entity, feature, n] = recd[entity, feature, n]` cannot hold for it.
`C1_counterexample` exhibits this; `C1_merge_correct` proves the claim with
that single feature exempted. -/

/-- A received store whose `"Image"` entity carries `ProcessingStatus =
InProcess` for image number 1. -/
def ceRecd : MStore :=
  { objectNames := ["Image"],
    featureNames := fun o => if o = "Image" then [STATUS] else [],
    data := fun o f k =>
      if o = "Image" ∧ f = STATUS ∧ k = 1 then some (MVal.s STATUS_IN_PROCESS)
      else none,
    relationships := [] }

/-- An initially empty main store. -/
def ceMain : MStore :=
  { objectNames := ["Image"],
    featureNames := fun _ => [],
    data := fun _ _ _ => none,
    relationships := [] }

/-- C1 (counterexample): the claim's equality clause — after
`copy_recieved_measurements(recd, main, nums)`, for every entity other than
`Experiment`, every feature of that entity present in `recd`, and every
`n ∈ nums`, `main[entity, feature, n] = recd[entity, feature, n]` — is false
for `recd = ceRecd`, `main = ceMain`, `nums = [1]`: the feature
`ProcessingStatus` on `"Image"` is present in `recd` with value `InProcess`,
but the merge leaves it `Done`. -/
theorem C1_counterexample :
    ¬ (∀ o, o ∈ ceRecd.objectNames → o ≠ "Experiment" →
        ∀ f, f ∈ ceRecd.featureNames o →
          ∀ k, k ∈ [1] →
            (copy_recieved_measurements ceRecd ceMain [1]).data o f k
              = ceRecd.data o f k) := by
  decide

/-- C1 (amended): after `copy_recieved_measurements(recd, main, nums)`, for
every entity other than `Experiment`, every feature of that entity present in
`recd` other than `ProcessingStatus` on `"Image"`, and every `n ∈ nums`, the
main store equals the received store; every `Experiment` value in `main` is
unchanged; and `main["Image", ProcessingStatus, n] = Done` for every
`n ∈ nums` (overriding any received `ProcessingStatus` value). -/
theorem C1_merge_correct (recd main : MStore) (nums : List Nat) :
    (∀ o, o ∈ recd.objectNames → o ≠ "Experiment" →
        ∀ f, f ∈ recd.featureNames o → ¬ (o = "Image" ∧ f = STATUS) →
          ∀ k, k ∈ nums →
            (copy_recieved_measurements recd main nums).data o f k
              = recd.data o f k) ∧
    (∀ f2 k, (copy_recieved_measurements recd main nums).data "Experiment" f2 k
        = main.data "Experiment" f2 k) ∧
    (∀ k, k ∈ nums →
        (copy_recieved_measurements recd main nums).data "Image" STATUS k
          = some (MVal.s STATUS_DONE)) := by
  refine ⟨?_, ?_, ?_⟩
  · intro o ho hne f hf hnis k hk
    unfold copy_recieved_measurements
    rw [statusFold_other nums o f k hnis]
    exact foldl_data_establishes (objStep recd nums) o f k (recd.data o f k) o
      (fun m2 a => objStep_data_cases recd nums o f k m2 a)
      (fun m2 => objStep_establishes recd nums o f k hne hf hk m2)
      recd.objectNames _ ho
  · intro f2 k
    unfold copy_recieved_measurements
    rw [statusFold_other nums "Experiment" f2 k (fun hc => absurd hc.1 (by decide))]
    rw [foldl_data_preserved (objStep recd nums) "Experiment" f2 k
      (fun m2 a => objStep_data_experiment recd nums f2 k m2 a) recd.objectNames _]
  · intro k hk
    unfold copy_recieved_measurements
    exact statusFold_done nums k hk _

/-- A received store with a non-`Image` entity (`"Cells"`), an `"Image"`
feature, and one image number, used to instantiate `C1_merge_correct`. -/
def wRecd : MStore :=
  { objectNames := ["Image", "Cells"],
    featureNames := fun o =>
      if o = "Cells" then ["AreaShape_Area"]
      else if o = "Image" then ["Count_Cells"] else [],
    data := fun o f k =>
      if o = "Cells" ∧ f = "AreaShape_Area" ∧ k = 1 then some (MVal.arr [5, 7])
      else if o = "Image" ∧ f = "Count_Cells" ∧ k = 1 then some (MVal.n 2)
      else none,
    relationships := [] }

/-- Witness for `C1_merge_correct`: at the concrete stores `wRecd`/`ceMain`
and batch `[1]`, the merged store matches the received `"Cells"` measurement
and the status is `Done`. -/
theorem C1_merge_correct_witness :
    (copy_recieved_measurements wRecd ceMain [1]).data "Cells" "AreaShape_Area" 1
        = wRecd.data "Cells" "AreaShape_Area" 1 ∧
    (copy_recieved_measurements wRecd ceMain [1]).data "Experiment" "Metadata" 1
        = ceMain.data "Experiment" "Metadata" 1 ∧
    (copy_recieved_measurements wRecd ceMain [1]).data "Image" STATUS 1
        = some (MVal.s STATUS_DONE) :=
  ⟨(C1_merge_correct wRecd ceMain [1]).1 "Cells" (by decide) (by decide)
      "AreaShape_Area" (by decide) (by decide) 1 (by decide),
   (C1_merge_correct wRecd ceMain [1]).2.1 "Metadata" 1,
   (C1_merge_correct wRecd ceMain [1]).2.2 1 (by decide)⟩

/-! ## The job planner (`Runner.interface`, lines 260-345)

The planner reads the store through a fixed logical view: the manifest's image
numbers, the `("Image", ProcessingStatus, n)` column, the grouping metadata,
and the `has_groups` flag.  `status n = none` models a missing
`ProcessingStatus` measurement (`has_measurements` false). -/

structure PlanStore where
  imageNumbers : List Nat
  status : Nat → Option String
  hasStatusFeature : Bool
  groupNumber : Nat → Nat
  groupIndex : Nat → Nat
  hasGroups : Bool

/-- Python `dict` lookup on an association list. -/
def alookup {β : Type} : List (Nat × β) → Nat → Option β
  | [], _ => none
  | (g1, v1) :: rest, g => if g = g1 then some v1 else alookup rest g

/-- Python `dict` assignment on an association list: overwrite or insert. -/
def aset {β : Type} : List (Nat × β) → Nat → β → List (Nat × β)
  | [], g, v => [(g, v)]
  | (g1, v1) :: rest, g, v =>
    if g = g1 then (g1, v) :: rest else (g1, v1) :: aset rest g v

/-- The window selection (lines 262-267):
`filter(lambda x: image_set_start <= x <= image_set_end, get_image_numbers())`. -/
def selectedWindow (st : PlanStore) (startN endN : Nat) : List Nat :=
  st.imageNumbers.filter fun n => decide (startN ≤ n) && decide (n ≤ endN)

/-- The `overwrite` variable as it stands when the reset loop begins
(lines 274-278): forced by `requires_aggregation()`, and by a missing
`ProcessingStatus` feature when grouping without overwrite. -/
def effOverwrite (st : PlanStore) (requiresAggregation ov0 : Bool) : Bool :=
  let ov1 := if requiresAggregation then true else ov0
  if st.hasGroups && !ov1 then
    if !st.hasStatusFeature then true else ov1
  else ov1

/-- One iteration of the `group_status` loop (lines 281-291). -/
def groupStatusStep (st : PlanStore) (gs : List (Nat × String)) (n : Nat) :
    List (Nat × String) :=
  if st.status n ≠ some STATUS_DONE then
    aset gs (st.groupNumber n) STATUS_UNPROCESSED
  else if (alookup gs (st.groupNumber n)).isNone then
    aset gs (st.groupNumber n) STATUS_DONE
  else gs

/-- The `group_status` dict: per-group completion computed over all image
numbers of the store (lines 280-291). -/
def groupStatusMap (st : PlanStore) : List (Nat × String) :=
  st.imageNumbers.foldl (groupStatusStep st) []

/-- The `needs_reset` test of the reset loop (lines 295-314), evaluated
against a status table `stat`. -/
def needsResetOn (st : PlanStore) (ov : Bool) (gs : List (Nat × String))
    (stat : Nat → Option String) (n : Nat) : Bool :=
  if ov || !(stat n).isSome || decide (stat n ≠ some STATUS_DONE) then true
  else if st.hasGroups then
    decide (alookup gs (st.groupNumber n) ≠ some STATUS_DONE)
  else false

/-- One iteration of the reset loop (lines 294-319): on `needs_reset`, set the
status to `Unprocessed` and retain the image number. -/
def resetStep (st : PlanStore) (ov : Bool) (gs : List (Nat × String))
    (acc : List Nat × (Nat → Option String)) (n : Nat) :
    List Nat × (Nat → Option String) :=
  if needsResetOn st ov gs acc.2 n then
    (acc.1 ++ [n], fun k => if k = n then some STATUS_UNPROCESSED else acc.2 k)
  else acc

/-- The whole reset loop (lines 293-320) over the selected image numbers,
run with the effective overwrite flag; returns
`new_image_sets_to_process` and the updated status column. -/
def resetLoop (st : PlanStore) (sel : List Nat) (ov : Bool) :
    List Nat × (Nat → Option String) :=
  sel.foldl (resetStep st ov (groupStatusMap st)) ([], st.status)

/-! ### Characterisation of `group_status` -/

/-- Some selected member of group `g` occurs in `l`. -/
def GMem (st : PlanStore) (l : List Nat) (g : Nat) : Prop :=
  ∃ n ∈ l, st.groupNumber n = g

/-- Every member of group `g` occurring in `l` is `Done`. -/
def GDone (st : PlanStore) (l : List Nat) (g : Nat) : Prop :=
  ∀ n ∈ l, st.groupNumber n = g → st.status n = some STATUS_DONE

instance (st : PlanStore) (l : List Nat) (g : Nat) : Decidable (GMem st l g) := by
  unfold GMem
  infer_instance

instance (st : PlanStore) (l : List Nat) (g : Nat) : Decidable (GDone st l g) := by
  unfold GDone
  infer_instance

theorem alookup_aset_same {β : Type} (m : List (Nat × β)) (g : Nat) (v : β) :
    alookup (aset m g v) g = some v := by
  induction m with
  | nil => simp [aset, alookup]
  | cons p rest ih =>
    obtain ⟨g1, v1⟩ := p
    by_cases h : g = g1
    · simp [aset, alookup, h]
    · simp [aset, alookup, h, ih]

theorem alookup_aset_ne {β : Type} (m : List (Nat × β)) (g g2 : Nat) (v : β)
    (h : g2 ≠ g) : alookup (aset m g v) g2 = alookup m g2 := by
  induction m with
  | nil => simp [aset, alookup, h]
  | cons p rest ih =>
    obtain ⟨g1, v1⟩ := p
    by_cases h1 : g = g1
    · subst h1
      simp [aset, alookup, h]
    · by_cases h2 : g2 = g1
      · simp [aset, alookup, h1, h2]
      · simp [aset, alookup, h1, h2, ih]

theorem GMem_append (st : PlanStore) (l : List Nat) (n g : Nat) :
    GMem st (l ++ [n]) g ↔ GMem st l g ∨ st.groupNumber n = g := by
  simp [GMem, List.mem_append, or_and_right, exists_or]

theorem GDone_append (st : PlanStore) (l : List Nat) (n g : Nat) :
    GDone st (l ++ [n]) g ↔
      GDone st l g ∧ (st.groupNumber n = g → st.status n = some STATUS_DONE) := by
  simp [GDone, List.mem_append, or_imp, forall_and]

theorem groupStatusStep_eq (st : PlanStore) (gs : List (Nat × String)) (n : Nat) :
    groupStatusStep st gs n =
      if st.status n ≠ some STATUS_DONE then
        aset gs (st.groupNumber n) STATUS_UNPROCESSED
      else if (alookup gs (st.groupNumber n)).isNone then
        aset gs (st.groupNumber n) STATUS_DONE
      else gs := rfl

/-- What the `group_status` dict holds for each group after the loop: `Done`
iff every member (over the whole manifest) is `Done`, `Unprocessed` iff some
member is not, absent iff the group has no member. -/
theorem groupStatus_char (st : PlanStore) : ∀ (l : List Nat) (g : Nat),
    alookup (l.foldl (groupStatusStep st) []) g =
      if GMem st l g then
        if GDone st l g then some STATUS_DONE else some STATUS_UNPROCESSED
      else none := by
  intro l
  induction l using List.reverseRecOn with
  | nil =>
    intro g
    simp [GMem, alookup]
  | append_singleton l n ih =>
    intro g
    rw [List.foldl_append, List.foldl_cons, List.foldl_nil]
    by_cases hg : st.groupNumber n = g
    · subst hg
      rw [groupStatusStep_eq]
      by_cases hdone : st.status n = some STATUS_DONE
      · rw [if_neg (not_not_intro hdone)]
        have hmemnew : GMem st (l ++ [n]) (st.groupNumber n) :=
          (GMem_append st l n _).2 (Or.inr rfl)
        have hdnew : GDone st (l ++ [n]) (st.groupNumber n) ↔
            GDone st l (st.groupNumber n) := by
          rw [GDone_append]
          exact ⟨fun h => h.1, fun h => ⟨h, fun _ => hdone⟩⟩
        by_cases hnone :
            (alookup (l.foldl (groupStatusStep st) []) (st.groupNumber n)).isNone
        · rw [if_pos hnone, alookup_aset_same]
          have hnomem : ¬ GMem st l (st.groupNumber n) := by
            intro hmem
            rw [ih, if_pos hmem] at hnone
            by_cases hd : GDone st l (st.groupNumber n) <;> simp [hd] at hnone
          have hdl : GDone st l (st.groupNumber n) :=
            fun k hk hkg => absurd ⟨k, hk, hkg⟩ hnomem
          rw [if_pos hmemnew, if_pos (hdnew.2 hdl)]
        · rw [if_neg hnone, ih]
          have hmem : GMem st l (st.groupNumber n) := by
            by_contra hmem
            rw [ih, if_neg hmem] at hnone
            simp at hnone
          rw [if_pos hmem, if_pos hmemnew]
          by_cases hd : GDone st l (st.groupNumber n)
          · rw [if_pos hd, if_pos (hdnew.2 hd)]
          · rw [if_neg hd, if_neg (fun hc => hd (hdnew.1 hc))]
      · rw [if_pos hdone, alookup_aset_same]
        have hmemnew : GMem st (l ++ [n]) (st.groupNumber n) :=
          (GMem_append st l n _).2 (Or.inr rfl)
        have hdnew : ¬ GDone st (l ++ [n]) (st.groupNumber n) := by
          rw [GDone_append]
          exact fun h => hdone (h.2 rfl)
        rw [if_pos hmemnew, if_neg hdnew]
    · have hm : GMem st (l ++ [n]) g ↔ GMem st l g := by
        rw [GMem_append]
        simp [hg]
      have hd : GDone st (l ++ [n]) g ↔ GDone st l g := by
        rw [GDone_append]
        simp [hg]
      have hstep : ∀ m2 : List (Nat × String),
          alookup (groupStatusStep st m2 n) g = alookup m2 g := by
        intro m2
        rw [groupStatusStep_eq]
        by_cases hdone : st.status n = some STATUS_DONE
        · rw [if_neg (not_not_intro hdone)]
          by_cases hnone : (alookup m2 (st.groupNumber n)).isNone
          · rw [if_pos hnone, alookup_aset_ne _ _ _ _ (fun hc => hg hc.symm)]
          · rw [if_neg hnone]
        · rw [if_pos hdone, alookup_aset_ne _ _ _ _ (fun hc => hg hc.symm)]
      rw [hstep, ih]
      by_cases hmem : GMem st l g
      · rw [if_pos hmem, if_pos (hm.2 hmem)]
        by_cases hdl : GDone st l g
        · rw [if_pos hdl, if_pos (hd.2 hdl)]
        · rw [if_neg hdl, if_neg (fun hc => hdl (hd.1 hc))]
      · rw [if_neg hmem, if_neg (fun hc => hmem (hm.1 hc))]

/-! ### The reset loop -/

theorem needsResetOn_congr (st : PlanStore) (ov : Bool) (gs : List (Nat × String))
    (stat1 stat2 : Nat → Option String) (n : Nat) (h : stat1 n = stat2 n) :
    needsResetOn st ov gs stat1 n = needsResetOn st ov gs stat2 n := by
  unfold needsResetOn
  rw [h]

/-- `resetStep` at `m` leaves the status and membership of any other image
number unchanged. -/
theorem resetStep_other (st : PlanStore) (ov : Bool) (gs : List (Nat × String))
    (acc : List Nat × (Nat → Option String)) (m n : Nat) (h : n ≠ m) :
    (resetStep st ov gs acc m).2 n = acc.2 n ∧
      (n ∈ (resetStep st ov gs acc m).1 ↔ n ∈ acc.1) := by
  unfold resetStep
  by_cases hb : needsResetOn st ov gs acc.2 m = true
  · rw [if_pos hb]
    refine ⟨?_, ?_⟩
    · show (if n = m then some STATUS_UNPROCESSED else acc.2 n) = acc.2 n
      rw [if_neg h]
    · show n ∈ acc.1 ++ [m] ↔ n ∈ acc.1
      simp [List.mem_append, h]
  · rw [if_neg hb]
    exact ⟨rfl, Iff.rfl⟩

theorem resetFold_untouched (st : PlanStore) (ov : Bool) (gs : List (Nat × String))
    (n : Nat) : ∀ (sel : List Nat) (acc : List Nat × (Nat → Option String)),
    n ∉ sel →
    (sel.foldl (resetStep st ov gs) acc).2 n = acc.2 n ∧
      (n ∈ (sel.foldl (resetStep st ov gs) acc).1 ↔ n ∈ acc.1) := by
  intro sel
  induction sel with
  | nil => exact fun acc _ => ⟨rfl, Iff.rfl⟩
  | cons m rest ih =>
    intro acc h
    have hnm : n ≠ m := fun hc => h (hc ▸ List.mem_cons_self m rest)
    have hni : n ∉ rest := fun hc => h (List.mem_cons_of_mem m hc)
    rw [List.foldl_cons]
    obtain ⟨h1, h2⟩ := ih (resetStep st ov gs acc m) hni
    obtain ⟨h3, h4⟩ := resetStep_other st ov gs acc m n hnm
    exact ⟨h1.trans h3, h2.trans h4⟩

/-- Characterisation of the reset loop at a selected image number `n` (no
duplicates): the final status and membership in
`new_image_sets_to_process` are decided by `needs_reset` evaluated on the
original store. -/
theorem resetFold_mem (st : PlanStore) (ov : Bool) (gs : List (Nat × String))
    (n : Nat) : ∀ (sel : List Nat) (acc : List Nat × (Nat → Option String)),
    sel.Nodup → n ∈ sel → acc.2 n = st.status n →
    ((sel.foldl (resetStep st ov gs) acc).2 n =
        (if needsResetOn st ov gs st.status n then some STATUS_UNPROCESSED
         else st.status n)) ∧
      (n ∈ (sel.foldl (resetStep st ov gs) acc).1 ↔
        (n ∈ acc.1 ∨ needsResetOn st ov gs st.status n = true)) := by
  intro sel
  induction sel with
  | nil => intro acc _ h; cases h
  | cons m rest ih =>
    intro acc hnd hmem hacc
    rw [List.foldl_cons]
    rcases List.mem_cons.1 hmem with he | hr
    · subst he
      have hnin : n ∉ rest := (List.nodup_cons.1 hnd).1
      obtain ⟨h1, h2⟩ := resetFold_untouched st ov gs n rest (resetStep st ov gs acc n) hnin
      have hcongr : needsResetOn st ov gs acc.2 n = needsResetOn st ov gs st.status n :=
        needsResetOn_congr st ov gs acc.2 st.status n hacc
      constructor
      · rw [h1]
        unfold resetStep
        by_cases hb : needsResetOn st ov gs acc.2 n = true
        · rw [if_pos hb]
          show (if n = n then some STATUS_UNPROCESSED else acc.2 n) = _
          rw [if_pos rfl, if_pos (hcongr ▸ hb)]
        · rw [if_neg hb, hacc, if_neg (fun hc => hb (hcongr.trans hc ▸ rfl))]
      · rw [h2]
        unfold resetStep
        by_cases hb : needsResetOn st ov gs acc.2 n = true
        · rw [if_pos hb]
          have : needsResetOn st ov gs st.status n = true := hcongr ▸ hb
          simp [List.mem_append, this]
        · rw [if_neg hb]
          have : ¬ needsResetOn st ov gs st.status n = true :=
            fun hc => hb (hcongr.trans hc ▸ rfl)
          simp [this]
    · have hmrest : m ∉ rest := (List.nodup_cons.1 hnd).1
      have hnm : n ≠ m := fun hc => hmrest (hc ▸ hr)
      obtain ⟨h3, h4⟩ := resetStep_other st ov gs acc m n hnm
      obtain ⟨h1, h2⟩ :=
        ih (resetStep st ov gs acc m) (List.nodup_cons.1 hnd).2 hr (h3.trans hacc)
      exact ⟨h1, h2.trans (by rw [h4])⟩

/-- The reset condition as the claim states it: `overwrite` set (as the
planner's variable stands at the loop, see `effOverwrite`), status missing,
status not `Done`, or grouping in effect and the image number's group (over
the whole manifest) not entirely `Done`. -/
def claimResetCond (st : PlanStore) (ov : Bool) (n : Nat) : Prop :=
  ov = true ∨ st.status n = none ∨ st.status n ≠ some STATUS_DONE ∨
    (st.hasGroups = true ∧ ∃ k ∈ st.imageNumbers,
      st.groupNumber k = st.groupNumber n ∧ st.status k ≠ some STATUS_DONE)

instance (st : PlanStore) (ov : Bool) (n : Nat) : Decidable (claimResetCond st ov n) := by
  unfold claimResetCond
  infer_instance

/-- `groupStatus_char` restated on `groupStatusMap`. -/
theorem groupStatusMap_char (st : PlanStore) (g : Nat) :
    alookup (groupStatusMap st) g =
      if GMem st st.imageNumbers g then
        if GDone st st.imageNumbers g then some STATUS_DONE
        else some STATUS_UNPROCESSED
      else none :=
  groupStatus_char st st.imageNumbers g

/-- `needs_reset` agrees with the claim's disjunction. -/
theorem needsReset_iff_claim (st : PlanStore) (ov : Bool) (n : Nat)
    (hn : n ∈ st.imageNumbers) :
    needsResetOn st ov (groupStatusMap st) st.status n = true ↔
      claimResetCond st ov n := by
  have hgmem : GMem st st.imageNumbers (st.groupNumber n) := ⟨n, hn, rfl⟩
  have hgchar := groupStatusMap_char st (st.groupNumber n)
  rw [if_pos hgmem] at hgchar
  unfold needsResetOn claimResetCond
  cases hs : st.status n with
  | none =>
    constructor
    · intro _
      exact Or.inr (Or.inl rfl)
    · intro _
      rw [if_pos]
      simp
  | some v =>
    by_cases hv : v = STATUS_DONE
    · subst hv
      cases ov with
      | true =>
        constructor
        · intro _
          exact Or.inl rfl
        · intro _
          rw [if_pos]
          simp
      | false =>
        rw [if_neg (by simp)]
        constructor
        · intro h
          by_cases hgr : st.hasGroups = true
          · rw [if_pos hgr, decide_eq_true_eq, hgchar] at h
            refine Or.inr (Or.inr (Or.inr ⟨hgr, ?_⟩))
            by_cases hgd : GDone st st.imageNumbers (st.groupNumber n)
            · rw [if_pos hgd] at h
              exact absurd rfl h
            · unfold GDone at hgd
              push_neg at hgd
              exact hgd
          · rw [if_neg hgr] at h
            cases h
        · intro h
          rcases h with h | h | h | ⟨hgr, k, hk, hkg, hks⟩
          · cases h
          · exact Option.noConfusion h
          · exact absurd rfl h
          · rw [if_pos hgr, decide_eq_true_eq, hgchar]
            have hgd : ¬ GDone st st.imageNumbers (st.groupNumber n) :=
              fun hg => hks (hg k hk hkg)
            rw [if_neg hgd]
            intro hc
            exact absurd (Option.some.inj hc) (by decide)
    · have hne : (some v : Option String) ≠ some STATUS_DONE :=
        fun hc => hv (Option.some.inj hc)
      rw [if_pos (by simp [hne])]
      constructor
      · intro _
        exact Or.inr (Or.inr (Or.inl hne))
      · intro _
        rfl

/-- C2: an image number `n` selected by the planner's window is marked for
(re)processing with its status reset to `Unprocessed` exactly when the claim's
condition holds — `overwrite` set (as the planner's variable stands at the
loop: parameter forced by `requires_aggregation()` and by a missing
`ProcessingStatus` feature under grouping), or the status measurement missing,
or the status not `Done`, or grouping in effect with the group not entirely
`Done`; otherwise the status is kept and `n` is excluded from processing. -/
theorem C2_reset_correct (st : PlanStore) (reqAgg ov0 : Bool) (startN endN : Nat)
    (n : Nat) (hnodup : st.imageNumbers.Nodup)
    (hn : n ∈ selectedWindow st startN endN) :
    ((n ∈ (resetLoop st (selectedWindow st startN endN)
            (effOverwrite st reqAgg ov0)).1 ∧
        (resetLoop st (selectedWindow st startN endN)
            (effOverwrite st reqAgg ov0)).2 n = some STATUS_UNPROCESSED) ↔
      claimResetCond st (effOverwrite st reqAgg ov0) n) ∧
    (¬ claimResetCond st (effOverwrite st reqAgg ov0) n →
      (resetLoop st (selectedWindow st startN endN)
          (effOverwrite st reqAgg ov0)).2 n = st.status n ∧
        n ∉ (resetLoop st (selectedWindow st startN endN)
            (effOverwrite st reqAgg ov0)).1) := by
  unfold resetLoop
  have hselnd : (selectedWindow st startN endN).Nodup := hnodup.filter _
  have hnmem : n ∈ st.imageNumbers := (List.mem_filter.1 hn).1
  obtain ⟨h1, h2⟩ := resetFold_mem st (effOverwrite st reqAgg ov0)
    (groupStatusMap st) n (selectedWindow st startN endN) ([], st.status)
    hselnd hn rfl
  have hiff := needsReset_iff_claim st (effOverwrite st reqAgg ov0) n hnmem
  constructor
  · constructor
    · intro ⟨hm, _⟩
      have := h2.1 hm
      simp only [List.not_mem_nil, false_or] at this
      exact hiff.1 this
    · intro hc
      have hb := hiff.2 hc
      refine ⟨h2.2 (Or.inr hb), ?_⟩
      rw [h1, if_pos hb]
  · intro hc
    have hb : ¬ needsResetOn st (effOverwrite st reqAgg ov0) (groupStatusMap st)
        st.status n = true := fun h => hc (hiff.1 h)
    constructor
    · rw [h1, if_neg hb]
    · intro hm
      have := h2.1 hm
      simp only [List.not_mem_nil, false_or] at this
      exact hb this

/-- Concrete planner store for the witness: three image sets, statuses
`Done`, `Done`, missing; no groups. -/
def wPlan : PlanStore :=
  { imageNumbers := [1, 2, 3],
    status := fun n => if n = 1 ∨ n = 2 then some STATUS_DONE else none,
    hasStatusFeature := true,
    groupNumber := fun _ => 1,
    groupIndex := fun n => n,
    hasGroups := false }

/-- Witness for `C2_reset_correct`: with window `[1, 3]`, no aggregation and
`overwrite = false`, image number 3 (missing status) is reset and retained,
and image number 1 (`Done`) keeps its status and is excluded. -/
theorem C2_reset_correct_witness :
    (3 ∈ (resetLoop wPlan (selectedWindow wPlan 1 3)
          (effOverwrite wPlan false false)).1 ∧
      (resetLoop wPlan (selectedWindow wPlan 1 3)
          (effOverwrite wPlan false false)).2 3 = some STATUS_UNPROCESSED) ∧
    ((resetLoop wPlan (selectedWindow wPlan 1 3)
          (effOverwrite wPlan false false)).2 1 = wPlan.status 1 ∧
      1 ∉ (resetLoop wPlan (selectedWindow wPlan 1 3)
          (effOverwrite wPlan false false)).1) :=
  ⟨((C2_reset_correct wPlan false false 1 3 3 (by decide) (by decide)).1).2
      (by decide),
   (C2_reset_correct wPlan false false 1 3 1 (by decide) (by decide)).2
      (by decide)⟩

/-! ### C3: job partition (lines 324-345) -/

/-- One iteration of the `job_groups` dict loop (lines 327-336):
`job_groups[group_number] = job_groups.get(group_number, []) + [(group_index, image_set_number)]`. -/
def jobGroupsStep (st : PlanStore) (m : List (Nat × List (Nat × Nat))) (n : Nat) :
    List (Nat × List (Nat × Nat)) :=
  aset m (st.groupNumber n)
    ((alookup m (st.groupNumber n)).getD [] ++ [(st.groupIndex n, n)])

/-- The order Python's `sorted` uses on `(group_index, image_number)` tuples:
lexicographic. -/
def pairLe (a b : Nat × Nat) : Prop := a.1 < b.1 ∨ (a.1 = b.1 ∧ a.2 ≤ b.2)

instance : DecidableRel pairLe := fun a b => by
  unfold pairLe
  infer_instance

instance : IsTotal (Nat × Nat) pairLe :=
  ⟨by
    intro a b
    unfold pairLe
    omega⟩

instance : IsTrans (Nat × Nat) pairLe :=
  ⟨by
    intro a b c
    unfold pairLe
    omega⟩

/-- The job built for one group number (line 338):
`[isn for _, isn in sorted(job_groups[group_number])]`. -/
def jobOf (st : PlanStore) (toProcess : List Nat) (g : Nat) : List Nat :=
  (List.insertionSort pairLe
      ((alookup (toProcess.foldl (jobGroupsStep st) []) g).getD [])).map Prod.snd

/-- The grouped partition (lines 326-340): collect `(group_index, n)` pairs
per group number, then emit, for each group number in ascending order, the
group's image numbers sorted by `(group_index, image_number)`. -/
def jobGroupsGrouped (st : PlanStore) (toProcess : List Nat) : List (List Nat) :=
  (List.insertionSort (· ≤ ·)
      ((toProcess.foldl (jobGroupsStep st) []).map Prod.fst)).map
    (jobOf st toProcess)

/-- The partition decision (lines 324-345): grouped jobs with
`worker_runs_post_group = true` when `has_groups or requires_aggregation()`,
otherwise one singleton job per image set with `false`. -/
def planPartition (st : PlanStore) (reqAgg : Bool) (toProcess : List Nat) :
    List (List Nat) × Bool :=
  if st.hasGroups || reqAgg then (jobGroupsGrouped st toProcess, true)
  else (toProcess.map fun n => [n], false)

theorem alookup_eq_none {β : Type} (m : List (Nat × β)) (g : Nat) :
    alookup m g = none ↔ g ∉ m.map Prod.fst := by
  induction m with
  | nil => simp [alookup]
  | cons p rest ih =>
    obtain ⟨g1, v1⟩ := p
    by_cases h : g = g1
    · subst h
      simp [alookup]
    · simp [alookup, h, ih]

theorem keys_aset {β : Type} (m : List (Nat × β)) (g : Nat) (v : β) :
    (aset m g v).map Prod.fst =
      if g ∈ m.map Prod.fst then m.map Prod.fst else m.map Prod.fst ++ [g] := by
  induction m with
  | nil => simp [aset]
  | cons p rest ih =>
    obtain ⟨g1, v1⟩ := p
    by_cases h : g = g1
    · subst h
      simp [aset]
    · by_cases hm : g ∈ rest.map Prod.fst
      · rw [if_pos (by simp [hm])]
        simp only [aset, if_neg h, List.map_cons]
        rw [ih, if_pos hm]
      · rw [if_neg (by simp [hm, h])]
        simp only [aset, if_neg h, List.map_cons]
        rw [ih, if_neg hm]
        simp

/-- What the `job_groups` dict holds per group after the collection loop:
the group's selected members in list order, paired with their group index. -/
theorem collect_alookup (st : PlanStore) : ∀ (l : List Nat) (g : Nat),
    (alookup (l.foldl (jobGroupsStep st) []) g).getD [] =
      (l.filter fun n => st.groupNumber n = g).map fun n => (st.groupIndex n, n) := by
  intro l
  induction l using List.reverseRecOn with
  | nil =>
    intro g
    simp [alookup]
  | append_singleton l n ih =>
    intro g
    rw [List.foldl_append, List.foldl_cons, List.foldl_nil]
    show (alookup (aset (l.foldl (jobGroupsStep st) []) (st.groupNumber n) _) g).getD []
      = _
    by_cases hg : st.groupNumber n = g
    · subst hg
      rw [alookup_aset_same]
      rw [List.filter_append, List.map_append]
      simp only [Option.getD_some]
      rw [ih]
      simp
    · rw [alookup_aset_ne _ _ _ _ (fun hc => hg hc.symm)]
      rw [List.filter_append, List.map_append]
      rw [ih]
      have : (List.filter (fun n => decide (st.groupNumber n = g)) [n]) = [] := by
        simp [hg]
      rw [this]
      simp

/-- A group number has an entry in `job_groups` iff it has a selected member. -/
theorem collect_keys_mem (st : PlanStore) : ∀ (l : List Nat) (g : Nat),
    g ∈ (l.foldl (jobGroupsStep st) []).map Prod.fst ↔
      ∃ n ∈ l, st.groupNumber n = g := by
  intro l
  induction l using List.reverseRecOn with
  | nil =>
    intro g
    simp
  | append_singleton l n ih =>
    intro g
    rw [List.foldl_append, List.foldl_cons, List.foldl_nil]
    show g ∈ (aset (l.foldl (jobGroupsStep st) []) (st.groupNumber n) _).map Prod.fst
      ↔ _
    rw [keys_aset]
    by_cases hk : st.groupNumber n ∈ (l.foldl (jobGroupsStep st) []).map Prod.fst
    · rw [if_pos hk]
      rw [ih]
      constructor
      · intro ⟨k, hkl, hkg⟩
        exact ⟨k, List.mem_append.2 (Or.inl hkl), hkg⟩
      · intro ⟨k, hkl, hkg⟩
        rcases List.mem_append.1 hkl with h | h
        · exact ⟨k, h, hkg⟩
        · have : k = n := List.mem_singleton.1 h
          subst this
          obtain ⟨k2, hk2, hk2g⟩ := ih _ |>.1 hk
          exact ⟨k2, hk2, hkg ▸ hk2g⟩
    · rw [if_neg hk]
      rw [List.mem_append, ih, List.mem_singleton]
      constructor
      · intro h
        rcases h with ⟨k, hkl, hkg⟩ | h
        · exact ⟨k, List.mem_append.2 (Or.inl hkl), hkg⟩
        · exact ⟨n, List.mem_append.2 (Or.inr (List.mem_singleton.2 rfl)), h.symm⟩
      · intro ⟨k, hkl, hkg⟩
        rcases List.mem_append.1 hkl with h | h
        · exact Or.inl ⟨k, h, hkg⟩
        · have : k = n := List.mem_singleton.1 h
          subst this
          exact Or.inr hkg.symm

/-- The `job_groups` keys are distinct. -/
theorem collect_keys_nodup (st : PlanStore) (l : List Nat) :
    ((l.foldl (jobGroupsStep st) []).map Prod.fst).Nodup := by
  induction l using List.reverseRecOn with
  | nil => simp
  | append_singleton l n ih =>
    rw [List.foldl_append, List.foldl_cons, List.foldl_nil]
    show ((aset (l.foldl (jobGroupsStep st) []) (st.groupNumber n) _).map Prod.fst).Nodup
    rw [keys_aset]
    by_cases hk : st.groupNumber n ∈ (l.foldl (jobGroupsStep st) []).map Prod.fst
    · rw [if_pos hk]
      exact ih
    · rw [if_neg hk]
      rw [List.nodup_append]
      exact ⟨ih, List.nodup_singleton _,
        fun a ha hb => hk ((List.mem_singleton.1 hb) ▸ ha)⟩

/-- Pairwise strengthening restricted to members. -/
theorem pairwise_imp_mem {α : Type} {R S : α → α → Prop} :
    ∀ {l : List α}, (∀ a ∈ l, ∀ b ∈ l, R a b → S a b) → l.Pairwise R →
      l.Pairwise S := by
  intro l
  induction l with
  | nil => intro _ _; exact List.Pairwise.nil
  | cons a rest ih =>
    intro h hp
    rcases List.pairwise_cons.1 hp with ⟨ha, hrest⟩
    refine List.pairwise_cons.2 ⟨?_, ?_⟩
    · intro b hb
      exact h a (List.mem_cons_self a rest) b (List.mem_cons_of_mem a hb) (ha b hb)
    · exact ih (fun x hx y hy => h x (List.mem_cons_of_mem a hx)
        y (List.mem_cons_of_mem a hy)) hrest

/-- A group's job is a permutation of the group's selected members. -/
theorem jobOf_perm (st : PlanStore) (toProcess : List Nat) (g : Nat) :
    (jobOf st toProcess g).Perm
      (toProcess.filter fun n => st.groupNumber n = g) := by
  unfold jobOf
  rw [collect_alookup st toProcess g]
  have h2 := (List.perm_insertionSort pairLe
    ((toProcess.filter fun n => st.groupNumber n = g).map
      fun n => (st.groupIndex n, n))).map Prod.snd
  rw [List.map_map] at h2
  have hid : (Prod.snd ∘ fun n : Nat => (st.groupIndex n, n)) = fun n : Nat => n := rfl
  rw [hid] at h2
  simpa using h2

/-- Every member of a group's job carries that group number. -/
theorem jobOf_groupNumber (st : PlanStore) (toProcess : List Nat) (g a : Nat)
    (ha : a ∈ jobOf st toProcess g) : st.groupNumber a = g := by
  have hmem := (jobOf_perm st toProcess g).mem_iff.1 ha
  exact of_decide_eq_true (List.mem_filter.1 hmem).2

/-- Within a job, image numbers are ordered by group index. -/
theorem jobOf_sorted (st : PlanStore) (toProcess : List Nat) (g : Nat) :
    (jobOf st toProcess g).Pairwise
      fun a b => st.groupIndex a ≤ st.groupIndex b := by
  unfold jobOf
  rw [List.pairwise_map]
  have hsorted := List.sorted_insertionSort pairLe
    ((alookup (toProcess.foldl (jobGroupsStep st) []) g).getD [])
  refine pairwise_imp_mem ?_ hsorted
  intro p hp q hq hpq
  have hpmem := (List.perm_insertionSort pairLe _).mem_iff.1 hp
  have hqmem := (List.perm_insertionSort pairLe _).mem_iff.1 hq
  rw [collect_alookup st toProcess g] at hpmem hqmem
  obtain ⟨np, _, hnp⟩ := List.mem_map.1 hpmem
  obtain ⟨nq, _, hnq⟩ := List.mem_map.1 hqmem
  have hp1 : p.1 = st.groupIndex p.2 := by rw [← hnp]
  have hq1 : q.1 = st.groupIndex q.2 := by rw [← hnq]
  unfold pairLe at hpq
  omega

/-- C3: when the store has groups or the pipeline requires aggregation, the
partition yields `worker_runs_post_group = true` and exactly one job per
group — each job nonempty, a permutation of its group's selected image
numbers, ordered by group index within the job, jobs ordered by (strictly
increasing) group number, and covering every selected image number.
Otherwise every selected image number forms its own singleton job with
`worker_runs_post_group = false`. -/
theorem C3_partition_correct (st : PlanStore) (reqAgg : Bool) (toProcess : List Nat) :
    ((st.hasGroups || reqAgg) = true →
      (planPartition st reqAgg toProcess).2 = true ∧
      (∀ job ∈ (planPartition st reqAgg toProcess).1,
        job ≠ [] ∧
        (∃ g, (∀ k ∈ job, st.groupNumber k = g) ∧
          job.Perm (toProcess.filter fun k => st.groupNumber k = g)) ∧
        job.Pairwise fun a b => st.groupIndex a ≤ st.groupIndex b) ∧
      ((planPartition st reqAgg toProcess).1.Pairwise fun j1 j2 =>
        ∀ a ∈ j1, ∀ b ∈ j2, st.groupNumber a < st.groupNumber b) ∧
      (∀ n ∈ toProcess, ∃ job ∈ (planPartition st reqAgg toProcess).1, n ∈ job)) ∧
    ((st.hasGroups || reqAgg) = false →
      (planPartition st reqAgg toProcess).1 = (toProcess.map fun n => [n]) ∧
      (planPartition st reqAgg toProcess).2 = false) := by
  constructor
  · intro hg
    unfold planPartition
    rw [if_pos hg]
    refine ⟨rfl, ?_, ?_, ?_⟩
    · intro job hjob
      obtain ⟨g, hgs, hjeq⟩ := List.mem_map.1 hjob
      subst hjeq
      have hkeys := (List.perm_insertionSort (fun a b : Nat => a ≤ b) _).mem_iff.1 hgs
      obtain ⟨k, hkl, hkg⟩ := (collect_keys_mem st toProcess g).1 hkeys
      have hkjob : k ∈ jobOf st toProcess g :=
        (jobOf_perm st toProcess g).mem_iff.2
          (List.mem_filter.2 ⟨hkl, by simp [hkg]⟩)
      exact ⟨List.ne_nil_of_mem hkjob,
        ⟨g, fun a ha => jobOf_groupNumber st toProcess g a ha,
          jobOf_perm st toProcess g⟩,
        jobOf_sorted st toProcess g⟩
    · show ((List.insertionSort (fun a b : Nat => a ≤ b) _).map
          (jobOf st toProcess)).Pairwise _
      rw [List.pairwise_map]
      have hsorted : (List.insertionSort (fun a b : Nat => a ≤ b)
          ((toProcess.foldl (jobGroupsStep st) []).map Prod.fst)).Pairwise
            (fun a b : Nat => a ≤ b) :=
        List.sorted_insertionSort _ _
      have hnd : (List.insertionSort (fun a b : Nat => a ≤ b)
          ((toProcess.foldl (jobGroupsStep st) []).map Prod.fst)).Nodup :=
        (List.perm_insertionSort _ _).nodup_iff.2 (collect_keys_nodup st toProcess)
      have hlt := List.Sorted.lt_of_le hsorted hnd
      refine pairwise_imp_mem ?_ hlt
      intro g1 _ g2 _ h12 a ha b hb
      rw [jobOf_groupNumber st toProcess g1 a ha,
        jobOf_groupNumber st toProcess g2 b hb]
      exact h12
    · intro n hn
      have hkeys : st.groupNumber n ∈
          (toProcess.foldl (jobGroupsStep st) []).map Prod.fst :=
        (collect_keys_mem st toProcess (st.groupNumber n)).2 ⟨n, hn, rfl⟩
      have hgs := (List.perm_insertionSort (fun a b : Nat => a ≤ b) _).mem_iff.2 hkeys
      refine ⟨jobOf st toProcess (st.groupNumber n), List.mem_map_of_mem _ hgs, ?_⟩
      exact (jobOf_perm st toProcess (st.groupNumber n)).mem_iff.2
        (List.mem_filter.2 ⟨hn, by simp⟩)
  · intro hng
    unfold planPartition
    rw [if_neg (by simp [hng])]
    exact ⟨rfl, rfl⟩

/-- Store with two groups `[1, 1, 2, 2]`, indices `[1, 2, 1, 2]`
(spec scenario S3). -/
def gPlan : PlanStore :=
  { imageNumbers := [1, 2, 3, 4],
    status := fun _ => none,
    hasStatusFeature := false,
    groupNumber := fun n => if n ≤ 2 then 1 else 2,
    groupIndex := fun n => if n = 1 ∨ n = 3 then 1 else 2,
    hasGroups := true }

/-- Witness for `C3_partition_correct`: the grouped store yields
post-group jobs covering image number 3, and the ungrouped store yields
singleton jobs. -/
theorem C3_partition_correct_witness :
    (planPartition gPlan false [1, 2, 3, 4]).2 = true ∧
    (∃ job ∈ (planPartition gPlan false [1, 2, 3, 4]).1, 3 ∈ job) ∧
    (planPartition wPlan false [1, 2, 3]).1 = ([1, 2, 3].map fun n => [n]) :=
  ⟨((C3_partition_correct gPlan false [1, 2, 3, 4]).1 (by decide)).1,
   ((C3_partition_correct gPlan false [1, 2, 3, 4]).1 (by decide)).2.2.2 3 (by decide),
   ((C3_partition_correct wPlan false [1, 2, 3]).2 (by decide)).1⟩

/-! ## The job server (`Runner.jobserver`, lines 498-619)

The handler dispatches on the request type and manipulates the four queues
and the flags.  Dictionaries and payload blobs are opaque tokens (`Nat`). -/

/-- Worker requests as dispatched by the job server (lines 538-616).
`imageSetSuccess` optionally carries the shared dictionaries
(`ImageSetSuccessWithDictionary` subclass); `interactive` stands for the
forwarded variants (`Interaction`, `Display`, `DisplayPostGroup`,
`ExceptionReport`, `DebugWaiting`, `DebugComplete`, `OmeroLogin`); `other`
stands for any request outside the known variants. -/
inductive Request where
  | pipelinePreferences
  | initialMeasurements
  | work
  | imageSetSuccess (imageSetNumber : Nat) (sharedDicts : Option (List Nat))
  | sharedDictionary
  | measurementsReport (imageSetNumbers : List Nat) (buf : Nat)
  | analysisCancel
  | interactive (payload : Nat)
  | other (desc : String)
  deriving DecidableEq

/-- Replies the job server sends (lines 540-596). -/
inductive JsReply where
  | pipelinePrefs
  | initialBuf
  | workReply (imageSetNumbers : List Nat) (workerRunsPostGroup wantsDictionary : Bool)
  | noWork
  | sharedDictionaryReply (dictionaries : Option (List Nat))
  | ack
  deriving DecidableEq

/-- The queues and flags the job server reads and writes. -/
structure ServerState where
  workQueue : List (List Nat × Bool × Bool)
  inProcessQueue : List (List Nat)
  finishedQueue : List Request
  receivedQueue : List (List Nat × Nat)
  sharedDicts : Option (List Nat)
  cancelled : Bool
  deriving DecidableEq

/-- One dispatch of the job server's request handler (lines 538-616): the
updated queues/flags and the reply the handler itself sends (`none` for
`ImageSetSuccess`, where the interface replies later, and for forwarded
interactive requests, where the embedder replies).  An unknown request
raises `ValueError` (lines 613-616), modelled as `Except.error` carrying
the logged message. -/
def handleRequest (st : ServerState) (req : Request) :
    Except String (ServerState × Option JsReply) :=
  match req with
  | Request.pipelinePreferences => Except.ok (st, some JsReply.pipelinePrefs)
  | Request.initialMeasurements => Except.ok (st, some JsReply.initialBuf)
  | Request.work =>
    match st.workQueue with
    | [] => Except.ok (st, some JsReply.noWork)
    | (job, wrpg, wd) :: rest =>
      Except.ok
        ({ st with
            workQueue := rest
            inProcessQueue := st.inProcessQueue ++ [job] },
          some (JsReply.workReply job wrpg wd))
  | Request.imageSetSuccess n d =>
    Except.ok
      ({ st with finishedQueue :=
          st.finishedQueue ++ [Request.imageSetSuccess n d] }, none)
  | Request.sharedDictionary =>
    Except.ok (st, some (JsReply.sharedDictionaryReply st.sharedDicts))
  | Request.measurementsReport nums buf =>
    Except.ok
      ({ st with receivedQueue := st.receivedQueue ++ [(nums, buf)] },
        some JsReply.ack)
  | Request.analysisCancel =>
    Except.ok ({ st with cancelled := true }, some JsReply.ack)
  | Request.interactive _ => Except.ok (st, none)
  | Request.other desc =>
    Except.error ("Unknown request from worker: " ++ desc)

/-- Servicing a sequence of requests in order; an uncaught `ValueError`
terminates the loop, leaving the remaining requests unserved. -/
def serveRequests (st : ServerState) : List Request → Except String ServerState
  | [] => Except.ok st
  | req :: rest =>
    match handleRequest st req with
    | Except.error e => Except.error e
    | Except.ok (st2, _) => serveRequests st2 rest

/-! ### C6: Work request handling -/

/-- C6: a `Work` request pops exactly one job when the work queue is
nonempty, replies with a `Work` carrying exactly that job's three fields and
appends the job's image numbers to the in-process queue, leaving everything
else unchanged; with an empty work queue it replies `NoWork` and modifies
no queue. -/
theorem C6_work_request (st : ServerState) :
    (st.workQueue = [] →
      handleRequest st Request.work = Except.ok (st, some JsReply.noWork)) ∧
    (∀ job wrpg wd rest, st.workQueue = (job, wrpg, wd) :: rest →
      handleRequest st Request.work =
        Except.ok
          ({ st with
              workQueue := rest
              inProcessQueue := st.inProcessQueue ++ [job] },
            some (JsReply.workReply job wrpg wd))) := by
  constructor
  · intro h
    unfold handleRequest
    rw [h]
  · intro job wrpg wd rest h
    unfold handleRequest
    rw [h]

/-- A server state with one queued job, for the witnesses. -/
def wServer : ServerState :=
  { workQueue := [([1, 2], true, false)],
    inProcessQueue := [],
    finishedQueue := [],
    receivedQueue := [],
    sharedDicts := none,
    cancelled := false }

/-- Witness for `C6_work_request`: with the concrete one-job queue the job is
popped and dispatched; with the empty queue the reply is `NoWork`. -/
theorem C6_work_request_witness :
    handleRequest wServer Request.work =
      Except.ok
        ({ wServer with
            workQueue := []
            inProcessQueue := [[1, 2]] },
          some (JsReply.workReply [1, 2] true false)) ∧
    handleRequest { wServer with workQueue := [] } Request.work =
      Except.ok ({ wServer with workQueue := [] }, some JsReply.noWork) :=
  ⟨(C6_work_request wServer).2 [1, 2] true false [] rfl,
   (C6_work_request { wServer with workQueue := [] }).1 rfl⟩

/-! ### C9: unknown requests -/

/-- C9: a request outside the known variants makes the job server log the
`Unknown request from worker` message and raise `ValueError` (lines 613-616);
the raised error aborts the serving loop, so no later request is handled. -/
theorem C9_unknown_request (st : ServerState) (desc : String)
    (rest : List Request) :
    handleRequest st (Request.other desc) =
      Except.error ("Unknown request from worker: " ++ desc) ∧
    serveRequests st (Request.other desc :: rest) =
      Except.error ("Unknown request from worker: " ++ desc) :=
  ⟨rfl, rfl⟩

/-! ### C5: the shared-dictionaries vector before bootstrap -/

/-- `self.shared_dicts` as interface setup leaves it (line 255), before the
work queue is seeded, before the job server starts serving, and hence before
bootstrap: one initial dictionary per pipeline module
(`[m.get_dictionary() for m in self.pipeline.modules()]`). -/
def setupSharedDicts (moduleDicts : List Nat) : Option (List Nat) :=
  some moduleDicts

/-- A job-server state before bootstrap: the first (wants-dictionary) job is
still queued, no success has been processed, and `shared_dicts` holds the
initial per-module dictionaries from line 255. -/
def preBootstrapState (moduleDicts firstJob : List Nat) : ServerState :=
  { workQueue := [(firstJob, false, true)],
    inProcessQueue := [],
    finishedQueue := [],
    receivedQueue := [],
    sharedDicts := setupSharedDicts moduleDicts,
    cancelled := false }

/-- C5 (counterexample): a `SharedDictionary` request served before bootstrap
(first job still queued, no success processed, two-module pipeline with
initial dictionaries `[10, 20]`) is answered with a dictionaries vector — the
claim says it never is. -/
theorem C5_counterexample :
    ∃ dicts : List Nat,
      handleRequest (preBootstrapState [10, 20] [1]) Request.sharedDictionary =
        Except.ok (preBootstrapState [10, 20] [1],
          some (JsReply.sharedDictionaryReply (some dicts))) :=
  ⟨[10, 20], rfl⟩

/-- C5 (amended): before bootstrap the shared-dictionaries vector is not
undefined — interface setup (line 255) sets it to the modules' initial
dictionaries (one per module, so its length already equals the module count)
before the job server starts serving — and the job server (lines 581-583)
answers every `SharedDictionary` request with the current vector,
regardless of bootstrap state. -/
theorem C5_shared_dicts_reply (st : ServerState) (moduleDicts firstJob : List Nat) :
    handleRequest st Request.sharedDictionary =
      Except.ok (st, some (JsReply.sharedDictionaryReply st.sharedDicts)) ∧
    (preBootstrapState moduleDicts firstJob).sharedDicts = some moduleDicts ∧
    ((preBootstrapState moduleDicts firstJob).sharedDicts.getD []).length =
      moduleDicts.length :=
  ⟨rfl, rfl, rfl⟩

/-! ## Work-queue bootstrap gating (`Runner.interface`, lines 350-363, 389-403)

For an ungrouped run the interface enqueues only `job_groups[0]` with
`wants_dictionary = true` and holds the remaining jobs back until the first
`ImageSetSuccess` is processed; that success must be an
`ImageSetSuccessWithDictionary` whose dictionaries list matches the module
count (asserts at lines 395 and 398), after which the held-back jobs are
enqueued with `wants_dictionary = false`. -/

/-- The queue-related interface state during bootstrap: the work queue, the
held-back `job_groups`, the `waiting_for_first_imageset` flag, the jobs the
job server has already popped, and `shared_dicts`. -/
structure BootState where
  workQueue : List (List Nat × Bool × Bool)
  pending : List (List Nat)
  waiting : Bool
  dispatched : List (List Nat × Bool × Bool)
  sharedDicts : Option (List Nat)
  deriving DecidableEq

/-- Seeding the work queue (lines 350-362): in the ungrouped case only
`job_groups[0]` is enqueued (`wants_dictionary = true`; `none` models the
`IndexError` when `job_groups` is empty); in the grouped case all jobs are
enqueued with `wants_dictionary = false`. -/
def seedWorkQueue (jobGroups : List (List Nat)) (wrpg : Bool)
    (dicts0 : Option (List Nat)) : Option BootState :=
  if !wrpg then
    match jobGroups with
    | [] => none
    | j :: rest =>
      some
        { workQueue := [(j, false, true)]
          pending := rest
          waiting := true
          dispatched := []
          sharedDicts := dicts0 }
  else
    some
      { workQueue := jobGroups.map fun j => (j, true, false)
        pending := []
        waiting := false
        dispatched := []
        sharedDicts := dicts0 }

/-- The queue-affecting transitions after seeding: the job server pops the
head job on a `Work` request (lines 551-566); the interface processes a
finished request (lines 389-403) — when `waiting_for_first_imageset` the
request must carry dictionaries matching the module count, and the held-back
jobs are then enqueued with `wants_dictionary = false`; a success processed
after bootstrap only marks status. -/
inductive BootStep (moduleCount : Nat) (wrpg : Bool) :
    BootState → BootState → Prop where
  | dispatch (s : BootState) (j : List Nat × Bool × Bool)
      (rest : List (List Nat × Bool × Bool)) :
      s.workQueue = j :: rest →
      BootStep moduleCount wrpg s
        { s with
            workQueue := rest
            dispatched := s.dispatched ++ [j] }
  | finishedWaiting (s : BootState) (ds : List Nat) :
      s.waiting = true → ds.length = moduleCount →
      BootStep moduleCount wrpg s
        { s with
            workQueue := s.workQueue ++ s.pending.map fun j => (j, wrpg, false)
            pending := []
            waiting := false
            sharedDicts := some ds }
  | finishedDone (s : BootState) :
      s.waiting = false →
      BootStep moduleCount wrpg s s

/-- C4: for an ungrouped run seeded from `first :: rest`: while
`waiting_for_first_imageset` holds (i.e. before the first `ImageSetSuccess`
is processed), the first job — with `wants_dictionary = true` — is the only
job ever placed on the work queue or dispatched, and the remaining jobs are
all still held back; and at every reachable state, any queued or dispatched
job with `wants_dictionary = true` is that first job, so every other job
carries `wants_dictionary = false` and can only have been enqueued by the
bootstrap transition (which requires the success to carry dictionaries
matching the module count). -/
theorem C4_bootstrap_gating (moduleCount : Nat) (first : List Nat)
    (rest : List (List Nat)) (dicts0 : Option (List Nat)) (s0 s : BootState)
    (hseed : seedWorkQueue (first :: rest) false dicts0 = some s0)
    (hreach : Relation.ReflTransGen (BootStep moduleCount false) s0 s) :
    (s.waiting = true →
      s.workQueue ++ s.dispatched = [(first, false, true)] ∧ s.pending = rest) ∧
    (∀ j ∈ s.workQueue ++ s.dispatched, j.2.2 = true → j = (first, false, true)) ∧
    (∀ j ∈ s.workQueue ++ s.dispatched, j.2.1 = false) := by
  have hs0 : s0 =
      { workQueue := [(first, false, true)]
        pending := rest
        waiting := true
        dispatched := []
        sharedDicts := dicts0 } := by
    unfold seedWorkQueue at hseed
    simp at hseed
    exact hseed.symm
  subst hs0
  induction hreach with
  | refl =>
    refine ⟨fun _ => ⟨rfl, rfl⟩, ?_, ?_⟩
    · intro j hj _
      simpa using List.mem_singleton.1 (by simpa using hj)
    · intro j hj
      have := List.mem_singleton.1 (by simpa using hj)
      rw [this]
  | @tail b c hsteps step ih =>
    obtain ⟨ih1, ih2, ih3⟩ := ih
    cases step with
    | dispatch j r hq =>
      refine ⟨?_, ?_, ?_⟩
      · intro hw
        dsimp only at hw
        obtain ⟨hall, hpend⟩ := ih1 hw
        rw [hq] at hall
        have hj : j = (first, false, true) ∧ r = [] ∧ b.dispatched = [] := by
          cases hd : b.dispatched with
          | nil =>
            rw [hd] at hall
            simp at hall
            exact ⟨hall.1, hall.2, rfl⟩
          | cons x xs =>
            rw [hd] at hall
            have hlen := congrArg List.length hall
            simp at hlen
        refine ⟨?_, hpend⟩
        show r ++ (b.dispatched ++ [j]) = [(first, false, true)]
        rw [hj.2.1, hj.2.2, hj.1]
        rfl
      · intro j2 hj2 hwd
        apply ih2 j2 _ hwd
        dsimp only at hj2
        rw [hq]
        simp only [List.mem_append, List.mem_cons, List.mem_singleton] at hj2 ⊢
        tauto
      · intro j2 hj2
        apply ih3 j2
        dsimp only at hj2
        rw [hq]
        simp only [List.mem_append, List.mem_cons, List.mem_singleton] at hj2 ⊢
        tauto
    | finishedWaiting ds hw hlen =>
      refine ⟨?_, ?_, ?_⟩
      · intro hfalse
        cases hfalse
      · intro j2 hj2 hwd
        dsimp only at hj2
        simp only [List.mem_append, List.mem_map] at hj2
        rcases hj2 with (h | h) | h
        · exact ih2 j2 (List.mem_append.2 (Or.inl h)) hwd
        · obtain ⟨jn, _, hjn⟩ := h
          rw [← hjn] at hwd
          cases hwd
        · exact ih2 j2 (List.mem_append.2 (Or.inr h)) hwd
      · intro j2 hj2
        dsimp only at hj2
        simp only [List.mem_append, List.mem_map] at hj2
        rcases hj2 with (h | h) | h
        · exact ih3 j2 (List.mem_append.2 (Or.inl h))
        · obtain ⟨jn, _, hjn⟩ := h
          rw [← hjn]
        · exact ih3 j2 (List.mem_append.2 (Or.inr h))
    | finishedDone hw =>
      exact ⟨ih1, ih2, ih3⟩

/-- The seeded state for the witness run `[[1], [2], [3]]`. -/
def bootS0 : BootState :=
  { workQueue := [([1], false, true)]
    pending := [[2], [3]]
    waiting := true
    dispatched := []
    sharedDicts := some [0, 0] }

/-- Witness for `C4_bootstrap_gating`: at the seed of the three-job
ungrouped run, only the first job (with `wants_dictionary = true`) is on the
work queue and jobs `[2]`, `[3]` are held back. -/
theorem C4_bootstrap_gating_witness :
    bootS0.workQueue ++ bootS0.dispatched = [([1], false, true)] ∧
    bootS0.pending = [[2], [3]] :=
  (C4_bootstrap_gating 2 [1] [[2], [3]] (some [0, 0]) bootS0 bootS0 rfl
    Relation.ReflTransGen.refl).1 rfl

/-! ## Interface lifecycle and teardown (`Runner.interface`, lines 229-447) -/

/-- Events the interface posts, as far as the lifecycle claims go. -/
inductive REvent where
  | started
  | progress
  | displayPostRun
  | finished (cancelled : Bool)
  deriving DecidableEq

/-- Events the main loop can post (progress reports at line 410 and
display events during `post_run`); `Started` and `Finished` are posted only
outside the loop. -/
inductive LoopEvent where
  | progress
  | displayPostRun
  deriving DecidableEq

def LoopEvent.toREvent : LoopEvent → REvent
  | LoopEvent.progress => REvent.progress
  | LoopEvent.displayPostRun => REvent.displayPostRun

/-- The inputs that determine the interface's lifecycle skeleton: the
manifest, the explicit end argument, the planned partition, and the
abstracted main-loop activity. -/
structure InterfaceCfg where
  imageNumbers : List Nat
  imageSetEnd : Option Nat
  jobGroups : List (List Nat)
  workerRunsPostGroup : Bool
  loopEvents : List LoopEvent
  cancelledAtEnd : Bool

/-- The interface body inside the `try` (lines 236-435): the events posted
and whether `Started` was posted.  Failure points modelled, in program
order: `measurements.get_image_numbers()[-1]` raising `IndexError` on an
empty manifest when no end is given (line 261, before `Started` at line
269), and `job_groups[0]` raising `IndexError` in an ungrouped run with
nothing to process (line 355, after `Started`).  The main loop is
abstracted by `cfg.loopEvents`. -/
def interfaceBody (cfg : InterfaceCfg) : List REvent × Bool :=
  if cfg.imageSetEnd = none ∧ cfg.imageNumbers = [] then ([], false)
  else if ¬ cfg.workerRunsPostGroup ∧ cfg.jobGroups = [] then
    ([REvent.started], true)
  else ([REvent.started] ++ cfg.loopEvents.map LoopEvent.toREvent, true)

/-- The whole of `interface()` including the `finally` block (lines
436-447): `Finished(measurements, was_cancelled)` is posted iff `Started`
was (`if posted_analysis_started` at line 443). -/
def interfaceTrace (cfg : InterfaceCfg) : List REvent :=
  (interfaceBody cfg).1 ++
    (if (interfaceBody cfg).2 then [REvent.finished cfg.cancelledAtEnd] else [])

def countFinished : List REvent → Nat
  | [] => 0
  | REvent.finished _ :: rest => countFinished rest + 1
  | REvent.started :: rest => countFinished rest
  | REvent.progress :: rest => countFinished rest
  | REvent.displayPostRun :: rest => countFinished rest

theorem countFinished_append (l1 l2 : List REvent) :
    countFinished (l1 ++ l2) = countFinished l1 + countFinished l2 := by
  induction l1 with
  | nil => simp [countFinished]
  | cons e rest ih =>
    cases e <;> simp [countFinished, ih]
    omega

theorem countFinished_loopEvents (l : List LoopEvent) :
    countFinished (l.map LoopEvent.toREvent) = 0 := by
  induction l with
  | nil => rfl
  | cons e rest ih =>
    cases e <;> simpa [countFinished, LoopEvent.toREvent] using ih

/-- The empty-store failure scenario: no image numbers, default window. -/
def emptyCfg : InterfaceCfg :=
  { imageNumbers := []
    imageSetEnd := none
    jobGroups := []
    workerRunsPostGroup := false
    loopEvents := []
    cancelledAtEnd := false }

/-- C7 (counterexample): when planning fails because the store has no image
numbers and no explicit end was given, `get_image_numbers()[-1]` raises at
line 261 — before `Started` is posted at line 269 — and the `finally`
block's `if posted_analysis_started` guard (line 443) then skips
`Finished`: no `Finished` is posted at all, where the claim demands exactly
one with `cancelled = false`. -/
theorem C7_counterexample :
    countFinished (interfaceTrace emptyCfg) = 0 ∧
    REvent.started ∉ interfaceTrace emptyCfg := by
  decide

/-- C7 (amended): the teardown invariant of `interface()` — a run posts
exactly one `Finished` iff it posted `Started` (so every analysis that
posted `Started` posts exactly one `Finished` on teardown, including on
error paths after `Started`, with the cancellation flag's value), and a run
that failed before `Started` — such as the empty-store planning failure with
the default window — posts none. -/
theorem C7_finished_iff_started (cfg : InterfaceCfg) :
    countFinished (interfaceTrace cfg) =
      (if REvent.started ∈ interfaceTrace cfg then 1 else 0) ∧
    (REvent.started ∈ interfaceTrace cfg →
      REvent.finished cfg.cancelledAtEnd ∈ interfaceTrace cfg) := by
  unfold interfaceTrace interfaceBody
  by_cases h1 : cfg.imageSetEnd = none ∧ cfg.imageNumbers = []
  · rw [if_pos h1]
    simp [countFinished]
  · rw [if_neg h1]
    by_cases h2 : ¬ cfg.workerRunsPostGroup ∧ cfg.jobGroups = []
    · rw [if_pos h2]
      simp [countFinished]
    · rw [if_neg h2]
      constructor
      · rw [if_pos (by simp)]
        simp only [List.append_assoc]
        rw [countFinished_append, countFinished_append, countFinished_loopEvents]
        rfl
      · intro _
        simp

/-- A one-image-set ungrouped run for the witness. -/
def okCfg : InterfaceCfg :=
  { imageNumbers := [1]
    imageSetEnd := none
    jobGroups := [[1]]
    workerRunsPostGroup := false
    loopEvents := [LoopEvent.progress]
    cancelledAtEnd := false }

/-- Witness for `C7_finished_iff_started`: the one-set run posts `Started`
and exactly one `Finished(cancelled = false)`. -/
theorem C7_finished_iff_started_witness :
    countFinished (interfaceTrace okCfg) = 1 ∧
    REvent.finished false ∈ interfaceTrace okCfg :=
  ⟨by rw [(C7_finished_iff_started okCfg).1, if_pos (by decide)],
   (C7_finished_iff_started okCfg).2 (by decide)⟩

/-! ## Flags, the job-server loop guard, and `cancel()` -/

/-- The `Runner` attributes consulted by the loop guards and by `cancel()`:
`self.cancelled`, `self.paused`, and `self.analysis_id` (`none` models the
`False` assigned by teardown at line 447). -/
structure Flags where
  cancelled : Bool
  paused : Bool
  analysisId : Option Nat
  deriving DecidableEq

/-- The job-server loop guard (line 517): `while not self.cancelled`.
It reads only `self.cancelled`. -/
def jobserverLoopContinues (f : Flags) : Bool := !f.cancelled

/-- The interface teardown's final assignment (line 447):
`self.analysis_id = False`. -/
def interfaceTeardownNullId (f : Flags) : Flags := { f with analysisId := none }

/-- C8 (code bug): nulling the analysis id does not change the job-server
loop guard, and on a completed uncancelled run — `cancelled` still `false`,
`analysis_id` nulled by teardown — the guard still evaluates `true`: the
loop keeps running, contrary to the claim and to the comment on line 447
("this will cause the jobserver thread to exit"), because the guard
`while not self.cancelled` (line 517) never reads `analysis_id`. -/
theorem C8_jobserver_guard_ignores_id :
    (∀ f : Flags,
      jobserverLoopContinues (interfaceTeardownNullId f) =
        jobserverLoopContinues f) ∧
    jobserverLoopContinues
      (interfaceTeardownNullId
        { cancelled := false, paused := false, analysisId := some 7 }) = true :=
  ⟨fun _ => rfl, rfl⟩

/-- The flag effect of `Runner.cancel` (lines 188-189):
`self.cancelled = True; self.paused = False`. -/
def cancelFlags (f : Flags) : Flags := { f with cancelled := true, paused := false }

/-- The interface loop's wait condition (lines 429-434): it keeps waiting
while `self.paused or (not self.cancelled and all three queues empty)`. -/
def interfaceWaitCond (f : Flags) (inProcEmpty finishedEmpty recvEmpty : Bool) :
    Bool :=
  f.paused || (!f.cancelled && inProcEmpty && finishedEmpty && recvEmpty)

/-- The statements of `Runner.cancel` (lines 183-195) in program order;
`notify_threads` notifies the interface condition variable and then the
job-server condition variable (lines 177-181). -/
inductive CancelAct where
  | stopWorkers
  | setCancelled
  | clearPaused
  | notifyInterfaceCv
  | notifyJobserverCv
  | joinInterface
  | joinJobserver
  deriving DecidableEq

def cancelSequence : List CancelAct :=
  [CancelAct.stopWorkers, CancelAct.setCancelled, CancelAct.clearPaused,
    CancelAct.notifyInterfaceCv, CancelAct.notifyJobserverCv,
    CancelAct.joinInterface, CancelAct.joinJobserver]

/-- C10: `cancel()` clears `paused` (in addition to setting `cancelled`)
before it notifies the two condition variables and joins the two threads;
with the resulting flags the interface wait condition is false whatever the
queues hold and the job-server loop guard is false, so neither thread can
remain blocked in its pause wait after `cancel()` — a paused run can always
be cancelled. -/
theorem C10_cancel_unblocks (f : Flags) :
    (cancelFlags f).paused = false ∧
    (cancelFlags f).cancelled = true ∧
    (∀ a b c : Bool, interfaceWaitCond (cancelFlags f) a b c = false) ∧
    jobserverLoopContinues (cancelFlags f) = false ∧
    (List.indexOf CancelAct.clearPaused cancelSequence <
        List.indexOf CancelAct.notifyInterfaceCv cancelSequence ∧
      List.indexOf CancelAct.notifyInterfaceCv cancelSequence <
        List.indexOf CancelAct.notifyJobserverCv cancelSequence ∧
      List.indexOf CancelAct.notifyJobserverCv cancelSequence <
        List.indexOf CancelAct.joinInterface cancelSequence ∧
      List.indexOf CancelAct.joinInterface cancelSequence <
        List.indexOf CancelAct.joinJobserver cancelSequence) :=
  ⟨rfl, rfl, fun _ _ _ => rfl, rfl, by decide⟩

end RunnerModel

